import Mathlib

/-!
Verification of the `filesm` file-maintenance utility (`delete_files.py`,
`move_files.py`) against its specification.

The shallow embedding models:
  * a directory snapshot as a tree of named entries (regular files carrying a
    modification timestamp, and subdirectories);
  * paths as lists of path components (`os.path.join root name` becomes
    `root ++ [name]`);
  * modification times as calendar timestamps (`datetime.fromtimestamp`
    values), compared lexicographically as Python's `datetime` does;
  * the mutable filesystem acted on by `os.remove` / `shutil.move` /
    `os.makedirs` as an explicit state threaded through the operations;
  * the interactive confirmation input as an explicit `response` argument.
-/

set_option maxHeartbeats 1000000

/-- Calendar timestamp as produced by `datetime.fromtimestamp`: Python
compares `datetime` values field by field, lexicographically. -/
structure DateTime where
  year : Nat
  month : Nat
  day : Nat
  hour : Nat
  minute : Nat
  second : Nat
deriving DecidableEq, Repr

/-- Python's `<` on `datetime` values: lexicographic on the calendar fields. -/
def DateTime.ltb (a b : DateTime) : Bool :=
  if a.year ≠ b.year then decide (a.year < b.year)
  else if a.month ≠ b.month then decide (a.month < b.month)
  else if a.day ≠ b.day then decide (a.day < b.day)
  else if a.hour ≠ b.hour then decide (a.hour < b.hour)
  else if a.minute ≠ b.minute then decide (a.minute < b.minute)
  else decide (a.second < b.second)

/-- A filesystem path, as the list of its components; `os.path.join p n` is
`p ++ [n]`. -/
abbrev FsPath := List String

/-- Python's `str.lower()` (ASCII range, which covers every string this
program compares: extensions and the `yes` token): lowercase each character.
-/
def lowerStr (s : String) : String :=
  String.mk (s.data.map Char.toLower)

/-- Python's `str.startswith(".")`: the first character is a dot. -/
def startsWithDot (s : String) : Bool :=
  match s.data with
  | c :: _ => c == '.'
  | [] => false

/-- `pathlib.PurePath(name).suffix`: the substring from the last dot `i`
(inclusive) when `0 < i < len(name) - 1`, otherwise the empty string. -/
def pathSuffix (name : String) : String :=
  let cs := name.data
  match cs.reverse.findIdx? (fun c => c == '.') with
  | none => ""
  | some j =>
    let i := cs.length - 1 - j
    if 0 < i ∧ i < cs.length - 1 then String.mk (cs.drop i) else ""

/-- `Path(name).suffix.lower()` as used throughout `delete_files.py`. -/
def suffixLower (name : String) : String :=
  lowerStr (pathSuffix name)

/-- The fixed image-extension exclusion set (`delete_files.py` line 21). -/
def picture_extensions : List String :=
  [".jpg", ".jpeg", ".png", ".gif", ".bmp", ".webp", ".svg", ".tiff", ".ico"]

/-- One entry of a directory listing: a regular file (with its modification
time) or a subdirectory with its own listing. A directory snapshot is a
`List FSEntry` in listing (`os.listdir` / `os.scandir`) order. -/
inductive FSEntry : Type where
  | file : String → DateTime → FSEntry
  | dir : String → List FSEntry → FSEntry

/-- The non-recursive scan (`os.listdir` + `os.path.isfile`,
`delete_files.py` lines 39-41): the regular files directly in the listing, in
order, as `(full_path, name, mtime)` triples. Directory entries fail the
`isfile` test and are dropped. -/
def rawFlat (folder : FsPath) (entries : List FSEntry) :
    List (FsPath × String × DateTime) :=
  entries.filterMap fun e =>
    match e with
    | .file n t => some (folder ++ [n], n, t)
    | .dir _ _ => none

mutual

/-- The recursive scan (`os.walk`, `delete_files.py` lines 25-27): for each
directory, top-down, its regular files in listing order, then the
subdirectories in listing order. -/
def rawWalk (folder : FsPath) (entries : List FSEntry) :
    List (FsPath × String × DateTime) :=
  (entries.filterMap fun e =>
    match e with
    | .file n t => some (folder ++ [n], n, t)
    | .dir _ _ => none) ++ rawWalkSub folder entries
termination_by (sizeOf entries, 1)

/-- Descent part of `os.walk`: visit each subdirectory of the listing in
order. -/
def rawWalkSub (folder : FsPath) : List FSEntry →
    List (FsPath × String × DateTime)
  | [] => []
  | .file _ _ :: rest => rawWalkSub folder rest
  | .dir d sub :: rest => rawWalk (folder ++ [d]) sub ++ rawWalkSub folder rest
termination_by es => (sizeOf es, 0)

end

/-- The per-file selection test of `read_files_in_folder`
(`delete_files.py` lines 28-36 and 42-50): skip picture extensions; when a
date bound is present, skip files modified strictly before `start_date` or
strictly after `end_date`. -/
def keepFile (start_date end_date : Option DateTime) (name : String)
    (mtime : DateTime) : Bool :=
  if picture_extensions.contains (suffixLower name) then false
  else if start_date.isSome || end_date.isSome then
    if (match start_date with
        | some s => DateTime.ltb mtime s
        | none => false) then false
    else if (match end_date with
        | some e => DateTime.ltb e mtime
        | none => false) then false
    else true
  else true

/-- Outcome of reading the root folder: a successful listing snapshot, or an
exception (missing directory, no permission) carrying its message. -/
inductive RootAccess : Type where
  | ok : List FSEntry → RootAccess
  | err : String → RootAccess

/-- `read_files_in_folder` (`delete_files.py` lines 7-55): list the
`(full_path, file_name)` pairs of the non-picture files in the date window,
walking recursively when `recursive` is set.  When the root cannot be read
the exception is caught and the result is the empty list. -/
def read_files_in_folder (folder_path : FsPath)
    (start_date end_date : Option DateTime) (recursive : Bool)
    (root : RootAccess) : List (FsPath × String) :=
  match root with
  | .err _ => []
  | .ok entries =>
    let raw := if recursive then rawWalk folder_path entries
               else rawFlat folder_path entries
    (raw.filter fun x => keepFile start_date end_date x.2.1 x.2.2).map
      fun x => (x.1, x.2.1)

/-- The lines printed by `read_files_in_folder`'s exception handler
(`delete_files.py` lines 53-54): the only output this function produces. -/
def read_files_in_folder_report (root : RootAccess) : List String :=
  match root with
  | .err e => ["Error reading folder: " ++ e]
  | .ok _ => []

/-- `path.glob("*")` followed by the `is_file()` test
(`delete_files.py` lines 76-78, non-recursive case): every child of the
folder in listing order, directories dropped by `is_file`. -/
def globStarFiles (folder : FsPath) (entries : List FSEntry) :
    List (FsPath × String × DateTime) :=
  entries.filterMap fun e =>
    match e with
    | .file n t => some (folder ++ [n], n, t)
    | .dir _ _ => none

mutual

/-- The directories matched by the `**` glob component: the folder itself,
then every subdirectory, depth-first in listing order, each with its
listing. -/
def globDirs (folder : FsPath) (entries : List FSEntry) :
    List (FsPath × List FSEntry) :=
  (folder, entries) :: globDirsSub folder entries
termination_by (sizeOf entries, 1)

/-- Recursive descent of the `**` glob component over a listing. -/
def globDirsSub (folder : FsPath) : List FSEntry →
    List (FsPath × List FSEntry)
  | [] => []
  | .file _ _ :: rest => globDirsSub folder rest
  | .dir d sub :: rest =>
      globDirs (folder ++ [d]) sub ++ globDirsSub folder rest
termination_by es => (sizeOf es, 0)

end

/-- `path.glob("**/*")` followed by the `is_file()` test
(`delete_files.py` lines 76-78, recursive case): for every directory matched
by `**`, its children matched by `*`, keeping regular files. -/
def globStarStarFiles (folder : FsPath) (entries : List FSEntry) :
    List (FsPath × String × DateTime) :=
  (globDirs folder entries).flatMap fun d => globStarFiles d.1 d.2

/-- `read_files_in_folder_pathlib` (`delete_files.py` lines 58-92): same
selection as `read_files_in_folder`, implemented over `pathlib.glob`, and
returning only the file names. -/
def read_files_in_folder_pathlib (folder_path : FsPath)
    (start_date end_date : Option DateTime) (recursive : Bool)
    (root : RootAccess) : List String :=
  match root with
  | .err _ => []
  | .ok entries =>
    let raw := if recursive then globStarStarFiles folder_path entries
               else globStarFiles folder_path entries
    (raw.filter fun x => keepFile start_date end_date x.2.1 x.2.2).map
      fun x => x.2.1

/-- The mutable filesystem state the executors act on: the set of existing
regular-file paths and the set of existing directory paths. It is distinct
from the enumeration snapshot, reflecting the accepted gap between
enumeration time and execution time. -/
structure FsState where
  files : List FsPath
  dirs : List FsPath
deriving DecidableEq, Repr

/-- `os.path.exists`. -/
def pathExists (p : FsPath) (fs : FsState) : Bool :=
  fs.files.contains p || fs.dirs.contains p

/-- `os.makedirs`. -/
def makedirs (p : FsPath) (fs : FsState) : FsState :=
  { fs with dirs := p :: fs.dirs }

/-- `os.remove p`: succeeds (returning the new state) exactly when `p` is an
existing file; otherwise raises, modelled as `none`. -/
def osRemove (p : FsPath) (fs : FsState) : Option FsState :=
  if fs.files.contains p then some { fs with files := fs.files.erase p }
  else none

/-- `shutil.move src dst`: succeeds exactly when `src` is an existing file,
the file then existing at `dst` instead; otherwise raises, modelled as
`none`. -/
def shutilMove (src dst : FsPath) (fs : FsState) : Option FsState :=
  if fs.files.contains src then
    some { fs with files := dst :: fs.files.erase src }
  else none

/-- The deletion loop of `delete_files` (`delete_files.py` lines 130-139):
attempt `os.remove` on every entry in order; a per-item failure is caught and
the loop continues. Returns `(deleted_count, deleted_files)` and the final
filesystem state. -/
def execDelete : List (FsPath × String) → FsState →
    (Nat × List String) × FsState
  | [], fs => ((0, []), fs)
  | (p, n) :: rest, fs =>
    match osRemove p fs with
    | some fs1 =>
      let r := execDelete rest fs1
      ((r.1.1 + 1, n :: r.1.2), r.2)
    | none => execDelete rest fs

/-- The move loop of `move_files_by_type` (`delete_files.py` lines 204-214):
attempt `shutil.move` of every entry to `destination_folder/file_name` in
order; a per-item failure is caught and the loop continues. -/
def execMove (destination_folder : FsPath) : List (FsPath × String) →
    FsState → (Nat × List String) × FsState
  | [], fs => ((0, []), fs)
  | (p, n) :: rest, fs =>
    match shutilMove p (destination_folder ++ [n]) fs with
    | some fs1 =>
      let r := execMove destination_folder rest fs1
      ((r.1.1 + 1, n :: r.1.2), r.2)
    | none => execMove destination_folder rest fs

/-- The plan `delete_files` acts on (`delete_files.py` line 111): exactly the
enumeration result. -/
def files_to_delete_plan (folder_path : FsPath)
    (start_date end_date : Option DateTime) (recursive : Bool)
    (root : RootAccess) : List (FsPath × String) :=
  read_files_in_folder folder_path start_date end_date recursive root

/-- `delete_files` (`delete_files.py` lines 95-147). `response` is the line
the interactive `input()` call would return (read only when `confirm` is
set). Returns `(deleted_count, deleted_files)` and the final filesystem
state. -/
def delete_files (folder_path : FsPath)
    (start_date end_date : Option DateTime) (confirm : Bool)
    (recursive : Bool) (root : RootAccess) (response : String)
    (fs : FsState) : (Nat × List String) × FsState :=
  let files_to_delete :=
    files_to_delete_plan folder_path start_date end_date recursive root
  if files_to_delete.isEmpty then ((0, []), fs)
  else if confirm && lowerStr response != "yes" then ((0, []), fs)
  else execDelete files_to_delete fs

/-- File-type normalization of `move_files_by_type`
(`delete_files.py` lines 174-176): a non-empty type not starting with a dot
gets a leading dot. -/
def normalizeType (file_type : String) : String :=
  if file_type ≠ "" ∧ startsWithDot file_type = false then "." ++ file_type
  else file_type

/-- The type filter of `move_files_by_type` (`delete_files.py` lines
181-185): keep every enumerated file when the (normalized) requested type is
empty, else the files whose suffix, lowercased, equals the lowercased
requested type. -/
def files_to_move_selection (file_type : String)
    (all_files : List (FsPath × String)) : List (FsPath × String) :=
  let ft := normalizeType file_type
  all_files.filter fun x => ft == "" || suffixLower x.2 == lowerStr ft

/-- `move_files_by_type` (`delete_files.py` lines 150-222). The destination
folder is created, if absent, before enumeration and confirmation. Returns
`(moved_count, moved_files)` and the final filesystem state. -/
def move_files_by_type (source_folder : FsPath) (file_type : String)
    (destination_folder : FsPath) (start_date end_date : Option DateTime)
    (confirm : Bool) (recursive : Bool) (root : RootAccess)
    (response : String) (fs : FsState) : (Nat × List String) × FsState :=
  let fs1 := if pathExists destination_folder fs then fs
             else makedirs destination_folder fs
  let all_files :=
    read_files_in_folder source_folder start_date end_date recursive root
  let files_to_move := files_to_move_selection file_type all_files
  if files_to_move.isEmpty then ((0, []), fs1)
  else if confirm && lowerStr response != "yes" then ((0, []), fs1)
  else execMove destination_folder files_to_move fs1

/-- One step of the year-grouping loop of `move_files_by_year`
(`delete_files.py` lines 258-261): append the file to its year's list,
creating the key (at the end, as Python dict insertion does) when absent. -/
def addToGroup (groups : List (String × List (FsPath × String)))
    (year : String) (x : FsPath × String) :
    List (String × List (FsPath × String)) :=
  if groups.any (fun g => g.1 == year) then
    groups.map fun g => if g.1 == year then (g.1, g.2 ++ [x]) else g
  else groups ++ [(year, [x])]

/-- The year-grouping loop of `move_files_by_year`
(`delete_files.py` lines 254-263): group the enumerated files by
`str(datetime.fromtimestamp(os.path.getmtime(file_path)).year)`. `mt` is the
filesystem's answer to `os.path.getmtime` at grouping time; a file whose
stat fails (`none`) is warned about and skipped. -/
def files_by_year (mt : FsPath → Option DateTime) :
    List (FsPath × String) → List (String × List (FsPath × String)) →
    List (String × List (FsPath × String))
  | [], acc => acc
  | x :: rest, acc =>
    match mt x.1 with
    | some t => files_by_year mt rest (addToGroup acc (toString t.year) x)
    | none => files_by_year mt rest acc

/-- The grouping `move_files_by_year` computes before its confirmation gate:
enumeration with **no date filter** (`delete_files.py` line 247 passes no
`start_date`/`end_date`), grouped by each file's own modification year. -/
def move_files_by_year_groups (source_folder : FsPath) (recursive : Bool)
    (root : RootAccess) (mt : FsPath → Option DateTime) :
    List (String × List (FsPath × String)) :=
  files_by_year mt
    (read_files_in_folder source_folder none none recursive root) []

/-- The execution loop of `move_files_by_year`
(`delete_files.py` lines 280-302): per year group, create the year folder if
absent, then move each file into it, tolerating per-item failures. Returns
`(moved_count, moved_files-by-year)` and the final state. -/
def execMoveByYear (destination_folder : FsPath) :
    List (String × List (FsPath × String)) → FsState →
    (Nat × List (String × List String)) × FsState
  | [], fs => ((0, []), fs)
  | (year, group) :: rest, fs =>
    let year_folder := destination_folder ++ [year]
    let fs1 := if pathExists year_folder fs then fs
               else makedirs year_folder fs
    let r := execMove year_folder group fs1
    let r2 := execMoveByYear destination_folder rest r.2
    ((r.1.1 + r2.1.1, (year, r.1.2) :: r2.1.2), r2.2)

/-- `move_files_by_year` (`delete_files.py` lines 225-310). Returns
`(moved_count, moved_files)` — the dict being an association list in
insertion order — and the final filesystem state. -/
def move_files_by_year (source_folder : FsPath)
    (destination_folder : Option FsPath) (confirm : Bool) (recursive : Bool)
    (root : RootAccess) (mt : FsPath → Option DateTime) (response : String)
    (fs : FsState) : (Nat × List (String × List String)) × FsState :=
  let destination := destination_folder.getD source_folder
  let all_files := read_files_in_folder source_folder none none recursive root
  if all_files.isEmpty then ((0, []), fs)
  else
    let groups := files_by_year mt all_files []
    if confirm && lowerStr response != "yes" then ((0, []), fs)
    else execMoveByYear destination groups fs

/-! ## Basic lemmas about the selection predicate -/

theorem DateTime.ltb_irrefl (t : DateTime) : DateTime.ltb t t = false := by
  simp [DateTime.ltb]

/-- Unfolded form of the per-file test: not a picture, not strictly before
`start_date`, not strictly after `end_date`. -/
theorem keepFile_eq (sd ed : Option DateTime) (n : String) (t : DateTime) :
    keepFile sd ed n t =
      (!picture_extensions.contains (suffixLower n) &&
       !(sd.elim false fun s => DateTime.ltb t s) &&
       !(ed.elim false fun e => DateTime.ltb e t)) := by
  cases hc : picture_extensions.contains (suffixLower n)
  · simp at hc
    cases sd with
    | none =>
      cases ed with
      | none => simp [keepFile, hc]
      | some e => cases h2 : DateTime.ltb e t <;> simp [keepFile, hc, h2]
    | some s =>
      cases ed with
      | none => cases h1 : DateTime.ltb t s <;> simp [keepFile, hc, h1]
      | some e =>
        cases h1 : DateTime.ltb t s <;> cases h2 : DateTime.ltb e t <;>
          simp [keepFile, hc, h1, h2]
  · simp at hc
    simp [keepFile, hc]

/-- The date window is a conjunction of the two one-sided windows. -/
theorem keepFile_inter (sd ed : Option DateTime) (n : String) (t : DateTime) :
    keepFile sd ed n t = (keepFile sd none n t && keepFile none ed n t) := by
  cases hp : picture_extensions.contains (suffixLower n) <;>
    cases hs : (sd.elim false fun s => DateTime.ltb t s) <;>
      cases he : (ed.elim false fun e => DateTime.ltb e t) <;>
        simp [keepFile_eq, hp, hs, he]

/-! ## Count/name consistency of the executors -/

theorem execDelete_count (plan : List (FsPath × String)) (fs : FsState) :
    (execDelete plan fs).1.1 = (execDelete plan fs).1.2.length := by
  induction plan generalizing fs with
  | nil => simp [execDelete]
  | cons x rest ih =>
    obtain ⟨p, n⟩ := x
    simp only [execDelete]
    cases osRemove p fs with
    | some fs1 => simp [ih fs1]
    | none => exact ih fs

theorem execMove_count (dest : FsPath) (plan : List (FsPath × String))
    (fs : FsState) :
    (execMove dest plan fs).1.1 = (execMove dest plan fs).1.2.length := by
  induction plan generalizing fs with
  | nil => simp [execMove]
  | cons x rest ih =>
    obtain ⟨p, n⟩ := x
    simp only [execMove]
    cases shutilMove p (dest ++ [n]) fs with
    | some fs1 => simp [ih fs1]
    | none => exact ih fs

theorem execMoveByYear_count (dest : FsPath)
    (groups : List (String × List (FsPath × String))) (fs : FsState) :
    (execMoveByYear dest groups fs).1.1 =
      ((execMoveByYear dest groups fs).1.2.map fun g => g.2.length).sum := by
  induction groups generalizing fs with
  | nil => simp [execMoveByYear]
  | cons g rest ih =>
    obtain ⟨year, group⟩ := g
    simp only [execMoveByYear, List.map_cons, List.sum_cons]
    rw [execMove_count]
    rw [ih]

/-- C10: every operation's returned count matches its returned names:
`delete_files` and `move_files_by_type` return `(n, names)` with
`n = names.length`, and `move_files_by_year` returns `(n, groups)` with `n`
the sum of the group sizes — in every outcome (cancellation, empty candidate
set, partial per-item failure). -/
theorem C10_count_name_consistency (folder src : FsPath) (ft : String)
    (dst : FsPath) (sd ed : Option DateTime) (confirm recursive : Bool)
    (root : RootAccess) (dest? : Option FsPath)
    (mt : FsPath → Option DateTime) (response : String) (fs : FsState) :
    (delete_files folder sd ed confirm recursive root response fs).1.1 =
      (delete_files folder sd ed confirm recursive root response fs).1.2.length
    ∧
    (move_files_by_type src ft dst sd ed confirm recursive root response
        fs).1.1 =
      (move_files_by_type src ft dst sd ed confirm recursive root response
        fs).1.2.length
    ∧
    (move_files_by_year src dest? confirm recursive root mt response fs).1.1 =
      ((move_files_by_year src dest? confirm recursive root mt response
          fs).1.2.map fun g => g.2.length).sum := by
  refine ⟨?_, ?_, ?_⟩
  · by_cases h1 : (files_to_delete_plan folder sd ed recursive root).isEmpty
    · simp [delete_files, h1]
    · by_cases h2 : (confirm && lowerStr response != "yes") = true
      · simp [delete_files, h1, h2]
      · simp [delete_files, h1, h2, execDelete_count]
  · by_cases h1 : (files_to_move_selection ft
        (read_files_in_folder src sd ed recursive root)).isEmpty
    · simp [move_files_by_type, h1]
    · by_cases h2 : (confirm && lowerStr response != "yes") = true
      · simp [move_files_by_type, h1, h2]
      · simp [move_files_by_type, h1, h2, execMove_count]
  · by_cases h1 : (read_files_in_folder src none none recursive root).isEmpty
    · simp [move_files_by_year, h1]
    · by_cases h2 : (confirm && lowerStr response != "yes") = true
      · simp [move_files_by_year, h1, h2]
      · simp [move_files_by_year, h1, h2, execMoveByYear_count]

/-- C8: when the root directory cannot be read, enumeration catches the
exception, prints the error report, and returns the empty list — the failure
never propagates to the caller. -/
theorem C8_unreadable_root (folder : FsPath) (sd ed : Option DateTime)
    (recursive : Bool) (e : String) :
    read_files_in_folder folder sd ed recursive (RootAccess.err e) = [] ∧
    read_files_in_folder_report (RootAccess.err e) =
      ["Error reading folder: " ++ e] := ⟨rfl, rfl⟩

/-! ## C1: cancelled operations -/

/-- C1 counterexample: `move_files_by_type`, cancelled by a `no` answer,
still modifies the filesystem — the destination folder is created before the
confirmation gate runs. The call returns the zero result `(0, [])`, yet the
final state differs from the initial one. -/
theorem C1_counterexample :
    (move_files_by_type ["src"] "" ["out"] none none true false
        (RootAccess.ok [FSEntry.file "a.txt" ⟨2025, 6, 1, 0, 0, 0⟩]) "no"
        ⟨[["src", "a.txt"]], [["src"]]⟩).1 = (0, []) ∧
    (move_files_by_type ["src"] "" ["out"] none none true false
        (RootAccess.ok [FSEntry.file "a.txt" ⟨2025, 6, 1, 0, 0, 0⟩]) "no"
        ⟨[["src", "a.txt"]], [["src"]]⟩).2 ≠
      ⟨[["src", "a.txt"]], [["src"]]⟩ := by
  constructor
  · rfl
  · decide

/-- C1 (amended): when `confirm` is set and the interactive input, lowercased,
is not `yes`, every operation returns its zero result; `delete_files` and
`move_files_by_year` leave the filesystem state untouched, while
`move_files_by_type` leaves every file in place but has already created the
destination folder when it did not exist. -/
theorem C1_cancelled_amended (folder src dst : FsPath) (ft : String)
    (sd ed : Option DateTime) (recursive : Bool) (root : RootAccess)
    (dest? : Option FsPath) (mt : FsPath → Option DateTime)
    (response : String) (fs : FsState)
    (h : lowerStr response ≠ "yes") :
    delete_files folder sd ed true recursive root response fs =
      ((0, []), fs) ∧
    move_files_by_year src dest? true recursive root mt response fs =
      ((0, []), fs) ∧
    move_files_by_type src ft dst sd ed true recursive root response fs =
      ((0, []), if pathExists dst fs then fs else makedirs dst fs) := by
  have hb : (lowerStr response != "yes") = true := by
    simpa using h
  refine ⟨?_, ?_, ?_⟩
  · by_cases h1 : (files_to_delete_plan folder sd ed recursive root).isEmpty
    · simp [delete_files, h1]
    · simp [delete_files, h1, hb]
  · by_cases h1 : (read_files_in_folder src none none recursive root).isEmpty
    · simp [move_files_by_year, h1]
    · simp [move_files_by_year, h1, hb]
  · by_cases h1 : (files_to_move_selection ft
        (read_files_in_folder src sd ed recursive root)).isEmpty
    · by_cases h2 : pathExists dst fs <;>
        simp [move_files_by_type, h1, h2]
    · by_cases h2 : pathExists dst fs <;>
        simp [move_files_by_type, h1, h2, hb]

/-- C1 witness: a concrete cancelled run of each operation. -/
theorem C1_cancelled_witness :
    delete_files ["src"] none none true false
        (RootAccess.ok [FSEntry.file "a.txt" ⟨2025, 6, 1, 0, 0, 0⟩]) "no"
        ⟨[["src", "a.txt"]], [["src"]]⟩ =
      ((0, []), ⟨[["src", "a.txt"]], [["src"]]⟩) ∧
    move_files_by_year ["src"] none true false
        (RootAccess.ok [FSEntry.file "a.txt" ⟨2025, 6, 1, 0, 0, 0⟩])
        (fun _ => some ⟨2025, 6, 1, 0, 0, 0⟩) "no"
        ⟨[["src", "a.txt"]], [["src"]]⟩ =
      ((0, []), ⟨[["src", "a.txt"]], [["src"]]⟩) ∧
    move_files_by_type ["src"] "" ["out"] none none true false
        (RootAccess.ok [FSEntry.file "a.txt" ⟨2025, 6, 1, 0, 0, 0⟩]) "no"
        ⟨[["src", "a.txt"]], [["src"]]⟩ =
      ((0, []),
        if pathExists ["out"] ⟨[["src", "a.txt"]], [["src"]]⟩ then
          ⟨[["src", "a.txt"]], [["src"]]⟩
        else makedirs ["out"] ⟨[["src", "a.txt"]], [["src"]]⟩) :=
  C1_cancelled_amended ["src"] ["src"] ["out"] "" none none false
    (RootAccess.ok [FSEntry.file "a.txt" ⟨2025, 6, 1, 0, 0, 0⟩]) none
    (fun _ => some ⟨2025, 6, 1, 0, 0, 0⟩) "no"
    ⟨[["src", "a.txt"]], [["src"]]⟩ (by decide)

/-! ## C3: date-window bounds -/

/-- Modelled from the spec: the `DateRange` semantics the claim asserts via
the spec's data-model section — "both bounds inclusive-exclusive": a file is
kept when its modification time is at or after `start` (start included) and
strictly before `end` (end excluded). -/
def dateWindowInclusiveExclusive (sd ed : Option DateTime)
    (t : DateTime) : Bool :=
  (match sd with
   | some s => !DateTime.ltb t s
   | none => true) &&
  (match ed with
   | some e => DateTime.ltb t e
   | none => true)

/-- C3 counterexample: at a modification time exactly equal to `end`, the
code keeps the file (its end bound is inclusive), while the inclusive-
exclusive window the claim asserts excludes it. -/
theorem C3_counterexample :
    keepFile none (some ⟨2025, 1, 1, 0, 0, 0⟩) "a.txt"
      ⟨2025, 1, 1, 0, 0, 0⟩ = true ∧
    dateWindowInclusiveExclusive none (some ⟨2025, 1, 1, 0, 0, 0⟩)
      ⟨2025, 1, 1, 0, 0, 0⟩ = false := by
  decide

/-- C3 (amended): when `start` is set a file is excluded iff its modification
time is strictly earlier than `start`; when `end` is set it is excluded iff
strictly later than `end`; hence both bounds are inclusive — a bound equal to
the file's own modification time never excludes it. -/
theorem C3_amended_window (sd ed : Option DateTime) (n : String)
    (t : DateTime) :
    (keepFile sd ed n t = true ↔
      picture_extensions.contains (suffixLower n) = false ∧
      (∀ s, sd = some s → DateTime.ltb t s = false) ∧
      (∀ e, ed = some e → DateTime.ltb e t = false)) ∧
    keepFile sd (some t) n t = keepFile sd none n t ∧
    keepFile (some t) ed n t = keepFile none ed n t := by
  refine ⟨?_, ?_, ?_⟩
  · rw [keepFile_eq]
    cases hc : picture_extensions.contains (suffixLower n)
    · cases sd with
      | none =>
        cases ed with
        | none => simp [hc]
        | some e => cases h2 : DateTime.ltb e t <;> simp [hc, h2]
      | some s =>
        cases ed with
        | none => cases h1 : DateTime.ltb t s <;> simp [hc, h1]
        | some e =>
          cases h1 : DateTime.ltb t s <;> cases h2 : DateTime.ltb e t <;>
            simp [hc, h1, h2]
    · simp [hc]
  · rw [keepFile_eq, keepFile_eq]
    simp [DateTime.ltb_irrefl]
  · rw [keepFile_eq, keepFile_eq]
    simp [DateTime.ltb_irrefl]

/-! ## C5: move-by-type selection -/

theorem normalizeType_ne_empty (ft : String) (hft : ft ≠ "") :
    normalizeType ft ≠ "" := by
  unfold normalizeType
  split
  · intro hc
    have hl := congrArg String.length hc
    rw [String.length_append] at hl
    have h1 : ("." : String).length = 1 := rfl
    have h0 : ("" : String).length = 0 := rfl
    omega
  · exact hft

/-- C5: with an empty `file_type`, `move_files_by_type` selects exactly the
enumerated set — the same work list `delete_files` acts on over the same
inputs; with a non-empty `file_type`, exactly the enumerated files whose
extension, case-insensitively, equals the dot-normalized requested extension
are selected. -/
theorem C5_selection (src : FsPath) (sd ed : Option DateTime)
    (recursive : Bool) (root : RootAccess) (ft : String) (hft : ft ≠ "") :
    files_to_move_selection ""
        (read_files_in_folder src sd ed recursive root) =
      files_to_delete_plan src sd ed recursive root ∧
    files_to_move_selection ft
        (read_files_in_folder src sd ed recursive root) =
      (read_files_in_folder src sd ed recursive root).filter
        fun x => suffixLower x.2 == lowerStr (normalizeType ft) := by
  constructor
  · simp [files_to_move_selection, normalizeType, files_to_delete_plan]
  · have hne : (normalizeType ft == "") = false := by
      simpa using normalizeType_ne_empty ft hft
    simp [files_to_move_selection, hne]

/-- C5 witness: a concrete folder with a `.txt` and a `.pdf` file, requested
type `txt` (without the leading dot). -/
theorem C5_selection_witness :
    files_to_move_selection ""
        (read_files_in_folder ["s"] none none false
          (RootAccess.ok [FSEntry.file "a.txt" ⟨2025, 1, 1, 0, 0, 0⟩,
            FSEntry.file "b.pdf" ⟨2025, 1, 2, 0, 0, 0⟩])) =
      files_to_delete_plan ["s"] none none false
        (RootAccess.ok [FSEntry.file "a.txt" ⟨2025, 1, 1, 0, 0, 0⟩,
          FSEntry.file "b.pdf" ⟨2025, 1, 2, 0, 0, 0⟩]) ∧
    files_to_move_selection "txt"
        (read_files_in_folder ["s"] none none false
          (RootAccess.ok [FSEntry.file "a.txt" ⟨2025, 1, 1, 0, 0, 0⟩,
            FSEntry.file "b.pdf" ⟨2025, 1, 2, 0, 0, 0⟩])) =
      (read_files_in_folder ["s"] none none false
          (RootAccess.ok [FSEntry.file "a.txt" ⟨2025, 1, 1, 0, 0, 0⟩,
            FSEntry.file "b.pdf" ⟨2025, 1, 2, 0, 0, 0⟩])).filter
        fun x => suffixLower x.2 == lowerStr (normalizeType "txt") :=
  C5_selection ["s"] none none false
    (RootAccess.ok [FSEntry.file "a.txt" ⟨2025, 1, 1, 0, 0, 0⟩,
      FSEntry.file "b.pdf" ⟨2025, 1, 2, 0, 0, 0⟩]) "txt" (by decide)

/-! ## C2: non-recursive enumeration membership -/

theorem keepFile_iff (sd ed : Option DateTime) (n : String) (t : DateTime) :
    keepFile sd ed n t = true ↔
      picture_extensions.contains (suffixLower n) = false ∧
      (∀ s, sd = some s → DateTime.ltb t s = false) ∧
      (∀ e, ed = some e → DateTime.ltb e t = false) := by
  rw [keepFile_eq]
  cases hc : picture_extensions.contains (suffixLower n)
  · cases sd with
    | none =>
      cases ed with
      | none => simp [hc]
      | some e => cases h2 : DateTime.ltb e t <;> simp [hc, h2]
    | some s =>
      cases ed with
      | none => cases h1 : DateTime.ltb t s <;> simp [hc, h1]
      | some e =>
        cases h1 : DateTime.ltb t s <;> cases h2 : DateTime.ltb e t <;>
          simp [hc, h1, h2]
  · simp [hc]

theorem read_files_flat_eq (folder : FsPath) (sd ed : Option DateTime)
    (entries : List FSEntry) :
    read_files_in_folder folder sd ed false (RootAccess.ok entries) =
      ((rawFlat folder entries).filter
          fun x => keepFile sd ed x.2.1 x.2.2).map
        fun x => (x.1, x.2.1) := rfl

theorem read_files_walk_eq (folder : FsPath) (sd ed : Option DateTime)
    (entries : List FSEntry) :
    read_files_in_folder folder sd ed true (RootAccess.ok entries) =
      ((rawWalk folder entries).filter
          fun x => keepFile sd ed x.2.1 x.2.2).map
        fun x => (x.1, x.2.1) := rfl

theorem mem_rawFlat (folder : FsPath) (entries : List FSEntry)
    (x : FsPath × String × DateTime) :
    x ∈ rawFlat folder entries ↔
      ∃ n t, FSEntry.file n t ∈ entries ∧ x = (folder ++ [n], n, t) := by
  unfold rawFlat
  rw [List.mem_filterMap]
  constructor
  · rintro ⟨e, he, hx⟩
    cases e with
    | file n t =>
      refine ⟨n, t, he, ?_⟩
      simpa using hx.symm
    | dir d sub => simp at hx
  · rintro ⟨n, t, hnt, rfl⟩
    exact ⟨.file n t, hnt, rfl⟩

/-- C2: the non-recursive enumeration contains `(p, n)` exactly when the
folder's listing has a regular file named `n` (so never a subdirectory's file
and never a directory entry), `p` is the joined path, the lowercased
extension is not a picture extension, and the modification time is not
strictly before `start_date` nor strictly after `end_date`. -/
theorem C2_nonrecursive_membership (folder : FsPath)
    (sd ed : Option DateTime) (entries : List FSEntry) (p : FsPath)
    (n : String) :
    (p, n) ∈ read_files_in_folder folder sd ed false
        (RootAccess.ok entries) ↔
      ∃ t, FSEntry.file n t ∈ entries ∧ p = folder ++ [n] ∧
        picture_extensions.contains (suffixLower n) = false ∧
        (∀ s, sd = some s → DateTime.ltb t s = false) ∧
        (∀ e, ed = some e → DateTime.ltb e t = false) := by
  rw [read_files_flat_eq]
  constructor
  · intro hmem
    obtain ⟨x, hx, hproj⟩ := List.mem_map.mp hmem
    rw [List.mem_filter] at hx
    obtain ⟨hraw, hk⟩ := hx
    rw [mem_rawFlat] at hraw
    obtain ⟨n', t, hnt, rfl⟩ := hraw
    simp only [Prod.mk.injEq] at hproj
    obtain ⟨hp, hn⟩ := hproj
    subst hn
    obtain ⟨hpic, hs, he⟩ := (keepFile_iff sd ed _ t).mp hk
    exact ⟨t, hnt, hp.symm, hpic, hs, he⟩
  · rintro ⟨t, hnt, rfl, hpic, hs, he⟩
    apply List.mem_map.mpr
    refine ⟨(folder ++ [n], n, t), ?_, rfl⟩
    rw [List.mem_filter]
    exact ⟨(mem_rawFlat folder entries _).mpr ⟨n, t, hnt, rfl⟩,
      (keepFile_iff sd ed n t).mpr ⟨hpic, hs, he⟩⟩

/-! ## C4: date filtering is an intersection -/

theorem keepFile_none_none_of (sd ed : Option DateTime) (n : String)
    (t : DateTime) (h : keepFile sd ed n t = true) :
    keepFile none none n t = true := by
  rw [keepFile_iff] at h
  rw [keepFile_iff]
  exact ⟨h.1, by simp, by simp⟩

theorem filter_map_inter_general
    (raw : List (FsPath × String × DateTime)) (sd ed : Option DateTime)
    (hnd : ((raw.filter fun x => keepFile none none x.2.1 x.2.2).map
        fun x => (x.1, x.2.1)).Nodup) :
    ((raw.filter fun x => keepFile sd ed x.2.1 x.2.2).map
        fun x => (x.1, x.2.1)) =
      ((raw.filter fun x => keepFile sd none x.2.1 x.2.2).map
          fun x => (x.1, x.2.1)) ∩
        ((raw.filter fun x => keepFile none ed x.2.1 x.2.2).map
          fun x => (x.1, x.2.1)) := by
  have hinj := List.inj_on_of_nodup_map hnd
  have hcong : ∀ x ∈ raw.filter fun x => keepFile sd none x.2.1 x.2.2,
      ((fun a => List.elem a ((raw.filter
          fun x => keepFile none ed x.2.1 x.2.2).map
            fun x => (x.1, x.2.1))) ∘ fun x => (x.1, x.2.1)) x =
        keepFile none ed x.2.1 x.2.2 := by
    intro x hx
    rw [List.mem_filter] at hx
    obtain ⟨hxr, hk1⟩ := hx
    have hx0 : x ∈ raw.filter fun x => keepFile none none x.2.1 x.2.2 :=
      List.mem_filter.mpr ⟨hxr, keepFile_none_none_of _ _ _ _ hk1⟩
    simp only [Function.comp]
    cases hk2 : keepFile none ed x.2.1 x.2.2
    · rw [← Bool.not_eq_true, List.elem_iff]
      intro hmem
      obtain ⟨y, hy, hproj⟩ := List.mem_map.mp hmem
      rw [List.mem_filter] at hy
      obtain ⟨hyr, hk2y⟩ := hy
      have hy0 : y ∈ raw.filter fun x => keepFile none none x.2.1 x.2.2 :=
        List.mem_filter.mpr ⟨hyr, keepFile_none_none_of _ _ _ _ hk2y⟩
      have hyx : y = x := hinj hy0 hx0 hproj
      rw [hyx] at hk2y
      rw [hk2y] at hk2
      simp at hk2
    · rw [List.elem_iff]
      apply List.mem_map.mpr
      exact ⟨x, List.mem_filter.mpr ⟨hxr, hk2⟩, rfl⟩
  rw [List.inter_def, List.filter_map, List.filter_congr hcong,
    List.filter_filter]
  have hpoint : ∀ x ∈ raw, keepFile sd ed x.2.1 x.2.2 =
      (keepFile none ed x.2.1 x.2.2 && keepFile sd none x.2.1 x.2.2) := by
    intro x _
    rw [keepFile_inter]
    exact Bool.and_comm _ _
  exact congrArg (List.map fun x => (x.1, x.2.1))
    (List.filter_congr hpoint)

/-- C4: over an unchanged snapshot (no duplicate `(path, name)` pairs in the
unfiltered enumeration), enumerating with both date bounds equals the
intersection of enumerating with only the start bound and with only the end
bound. -/
theorem C4_date_intersection (folder : FsPath) (sd ed : Option DateTime)
    (recursive : Bool) (root : RootAccess)
    (hnd : (read_files_in_folder folder none none recursive root).Nodup) :
    read_files_in_folder folder sd ed recursive root =
      read_files_in_folder folder sd none recursive root ∩
        read_files_in_folder folder none ed recursive root := by
  cases root with
  | err e => rfl
  | ok entries =>
    cases recursive
    · rw [read_files_flat_eq] at hnd
      rw [read_files_flat_eq, read_files_flat_eq, read_files_flat_eq]
      exact filter_map_inter_general _ sd ed hnd
    · rw [read_files_walk_eq] at hnd
      rw [read_files_walk_eq, read_files_walk_eq, read_files_walk_eq]
      exact filter_map_inter_general _ sd ed hnd

/-- C4 witness: a concrete two-file folder with both bounds set. -/
theorem C4_date_intersection_witness :
    read_files_in_folder ["s"] (some ⟨2025, 1, 1, 0, 0, 0⟩)
        (some ⟨2025, 6, 1, 0, 0, 0⟩) false
        (RootAccess.ok [FSEntry.file "a.txt" ⟨2025, 3, 1, 0, 0, 0⟩,
          FSEntry.file "b.txt" ⟨2024, 3, 1, 0, 0, 0⟩]) =
      read_files_in_folder ["s"] (some ⟨2025, 1, 1, 0, 0, 0⟩) none false
          (RootAccess.ok [FSEntry.file "a.txt" ⟨2025, 3, 1, 0, 0, 0⟩,
            FSEntry.file "b.txt" ⟨2024, 3, 1, 0, 0, 0⟩]) ∩
        read_files_in_folder ["s"] none (some ⟨2025, 6, 1, 0, 0, 0⟩) false
          (RootAccess.ok [FSEntry.file "a.txt" ⟨2025, 3, 1, 0, 0, 0⟩,
            FSEntry.file "b.txt" ⟨2024, 3, 1, 0, 0, 0⟩]) :=
  C4_date_intersection ["s"] (some ⟨2025, 1, 1, 0, 0, 0⟩)
    (some ⟨2025, 6, 1, 0, 0, 0⟩) false
    (RootAccess.ok [FSEntry.file "a.txt" ⟨2025, 3, 1, 0, 0, 0⟩,
      FSEntry.file "b.txt" ⟨2024, 3, 1, 0, 0, 0⟩]) (by decide)

/-! ## C7: per-item failure isolation in the executors -/

theorem execDelete_all (plan : List (FsPath × String)) (fs : FsState)
    (hnd : (plan.map Prod.fst).Nodup)
    (hmem : ∀ e ∈ plan, e.1 ∈ fs.files) :
    (execDelete plan fs).1 = (plan.length, plan.map Prod.snd) := by
  induction plan generalizing fs with
  | nil => simp [execDelete]
  | cons x rest ih =>
    obtain ⟨p, n⟩ := x
    have hp : p ∈ fs.files := hmem (p, n) (List.mem_cons_self _ _)
    have hrem : osRemove p fs = some { fs with files := fs.files.erase p } :=
      by simp [osRemove, hp]
    simp only [execDelete, hrem]
    have hnd' : (rest.map Prod.fst).Nodup := by
      simp only [List.map_cons, List.nodup_cons] at hnd
      exact hnd.2
    have hpn : p ∉ rest.map Prod.fst := by
      simp only [List.map_cons, List.nodup_cons] at hnd
      exact hnd.1
    have hmem' : ∀ e ∈ rest, e.1 ∈ ({ fs with files := fs.files.erase p } :
        FsState).files := by
      intro e he
      have hne : e.1 ≠ p := by
        intro hq
        exact hpn (hq ▸ List.mem_map_of_mem Prod.fst he)
      exact (List.mem_erase_of_ne hne).mpr (hmem e (List.mem_cons_of_mem _ he))
    rw [ih _ hnd' hmem']
    simp

theorem execMove_all (dest : FsPath) (plan : List (FsPath × String))
    (fs : FsState) (hnd : (plan.map Prod.fst).Nodup)
    (hmem : ∀ e ∈ plan, e.1 ∈ fs.files) :
    (execMove dest plan fs).1 = (plan.length, plan.map Prod.snd) := by
  induction plan generalizing fs with
  | nil => simp [execMove]
  | cons x rest ih =>
    obtain ⟨p, n⟩ := x
    have hp : p ∈ fs.files := hmem (p, n) (List.mem_cons_self _ _)
    have hmv : shutilMove p (dest ++ [n]) fs =
        some { fs with files := (dest ++ [n]) :: fs.files.erase p } :=
      by simp [shutilMove, hp]
    simp only [execMove, hmv]
    have hnd' : (rest.map Prod.fst).Nodup := by
      simp only [List.map_cons, List.nodup_cons] at hnd
      exact hnd.2
    have hpn : p ∉ rest.map Prod.fst := by
      simp only [List.map_cons, List.nodup_cons] at hnd
      exact hnd.1
    have hmem' : ∀ e ∈ rest, e.1 ∈ ({ fs with
        files := (dest ++ [n]) :: fs.files.erase p } : FsState).files := by
      intro e he
      have hne : e.1 ≠ p := by
        intro hq
        exact hpn (hq ▸ List.mem_map_of_mem Prod.fst he)
      exact List.mem_cons_of_mem _
        ((List.mem_erase_of_ne hne).mpr (hmem e (List.mem_cons_of_mem _ he)))
    rw [ih _ hnd' hmem']
    simp

theorem execDelete_one_fail (l₁ l₂ : List (FsPath × String)) (p₀ : FsPath)
    (n₀ : String) (fs : FsState)
    (hnd : ((l₁ ++ (p₀, n₀) :: l₂).map Prod.fst).Nodup)
    (hmem : ∀ e ∈ l₁ ++ l₂, e.1 ∈ fs.files)
    (hfail : p₀ ∉ fs.files) :
    (execDelete (l₁ ++ (p₀, n₀) :: l₂) fs).1 =
      (l₁.length + l₂.length, (l₁ ++ l₂).map Prod.snd) := by
  induction l₁ generalizing fs with
  | nil =>
    have hrem : osRemove p₀ fs = none := by simp [osRemove, hfail]
    simp only [List.nil_append, execDelete, hrem]
    have hnd' : (l₂.map Prod.fst).Nodup := by
      simp only [List.nil_append, List.map_cons, List.nodup_cons] at hnd
      exact hnd.2
    rw [execDelete_all l₂ fs hnd' (fun e he => hmem e he)]
    simp
  | cons x l₁' ih =>
    obtain ⟨p, n⟩ := x
    have hp : p ∈ fs.files :=
      hmem (p, n) (List.mem_append_left _ (List.mem_cons_self _ _))
    have hrem : osRemove p fs = some { fs with files := fs.files.erase p } :=
      by simp [osRemove, hp]
    simp only [List.cons_append, execDelete, hrem, List.append_eq]
    have hpn : p ∉ (l₁' ++ (p₀, n₀) :: l₂).map Prod.fst := by
      simp only [List.cons_append, List.map_cons, List.nodup_cons] at hnd
      exact hnd.1
    have hnd' : ((l₁' ++ (p₀, n₀) :: l₂).map Prod.fst).Nodup := by
      simp only [List.cons_append, List.map_cons, List.nodup_cons] at hnd
      exact hnd.2
    have hmem' : ∀ e ∈ l₁' ++ l₂, e.1 ∈ ({ fs with
        files := fs.files.erase p } : FsState).files := by
      intro e he
      have h1 : e.1 ∈ (l₁' ++ (p₀, n₀) :: l₂).map Prod.fst := by
        rcases List.mem_append.mp he with h | h
        · exact List.mem_map_of_mem _ (List.mem_append_left _ h)
        · exact List.mem_map_of_mem _
            (List.mem_append_right _ (List.mem_cons_of_mem _ h))
      have hne : e.1 ≠ p := fun hq => hpn (hq ▸ h1)
      exact (List.mem_erase_of_ne hne).mpr
        (hmem e (List.mem_cons_of_mem _ he))
    have hfail' : p₀ ∉ ({ fs with files := fs.files.erase p } :
        FsState).files := fun h => hfail (List.mem_of_mem_erase h)
    rw [ih _ hnd' hmem' hfail']
    simp [Nat.add_right_comm]

theorem execMove_one_fail (dest : FsPath) (l₁ l₂ : List (FsPath × String))
    (p₀ : FsPath) (n₀ : String) (fs : FsState)
    (hnd : ((l₁ ++ (p₀, n₀) :: l₂).map Prod.fst).Nodup)
    (hmem : ∀ e ∈ l₁ ++ l₂, e.1 ∈ fs.files)
    (hfail : p₀ ∉ fs.files)
    (hdst : ∀ e ∈ l₁, dest ++ [e.2] ≠ p₀) :
    (execMove dest (l₁ ++ (p₀, n₀) :: l₂) fs).1 =
      (l₁.length + l₂.length, (l₁ ++ l₂).map Prod.snd) := by
  induction l₁ generalizing fs with
  | nil =>
    have hmv : shutilMove p₀ (dest ++ [n₀]) fs = none := by
      simp [shutilMove, hfail]
    simp only [List.nil_append, execMove, hmv]
    have hnd' : (l₂.map Prod.fst).Nodup := by
      simp only [List.nil_append, List.map_cons, List.nodup_cons] at hnd
      exact hnd.2
    rw [execMove_all dest l₂ fs hnd' (fun e he => hmem e he)]
    simp
  | cons x l₁' ih =>
    obtain ⟨p, n⟩ := x
    have hp : p ∈ fs.files :=
      hmem (p, n) (List.mem_append_left _ (List.mem_cons_self _ _))
    have hmv : shutilMove p (dest ++ [n]) fs =
        some { fs with files := (dest ++ [n]) :: fs.files.erase p } :=
      by simp [shutilMove, hp]
    simp only [List.cons_append, execMove, hmv, List.append_eq]
    have hpn : p ∉ (l₁' ++ (p₀, n₀) :: l₂).map Prod.fst := by
      simp only [List.cons_append, List.map_cons, List.nodup_cons] at hnd
      exact hnd.1
    have hnd' : ((l₁' ++ (p₀, n₀) :: l₂).map Prod.fst).Nodup := by
      simp only [List.cons_append, List.map_cons, List.nodup_cons] at hnd
      exact hnd.2
    have hmem' : ∀ e ∈ l₁' ++ l₂, e.1 ∈ ({ fs with
        files := (dest ++ [n]) :: fs.files.erase p } : FsState).files := by
      intro e he
      have h1 : e.1 ∈ (l₁' ++ (p₀, n₀) :: l₂).map Prod.fst := by
        rcases List.mem_append.mp he with h | h
        · exact List.mem_map_of_mem _ (List.mem_append_left _ h)
        · exact List.mem_map_of_mem _
            (List.mem_append_right _ (List.mem_cons_of_mem _ h))
      have hne : e.1 ≠ p := fun hq => hpn (hq ▸ h1)
      exact List.mem_cons_of_mem _ ((List.mem_erase_of_ne hne).mpr
        (hmem e (List.mem_cons_of_mem _ he)))
    have hfail' : p₀ ∉ ({ fs with
        files := (dest ++ [n]) :: fs.files.erase p } : FsState).files := by
      intro h
      rcases List.mem_cons.mp h with h | h
      · exact hdst (p, n) (List.mem_cons_self _ _) h.symm
      · exact hfail (List.mem_of_mem_erase h)
    have hdst' : ∀ e ∈ l₁', dest ++ [e.2] ≠ p₀ :=
      fun e he => hdst e (List.mem_cons_of_mem _ he)
    rw [ih _ hnd' hmem' hfail' hdst']
    simp [Nat.add_right_comm]

/-- C7 counterexample: a two-entry plan whose entries share the file name
`x.txt`; the first entry's path does not exist at execution time (exactly one
failing entry). The batch continues and reports `1 = 2 - 1` successes, but
the failing file's name is **not** absent from the returned names. -/
theorem C7_counterexample :
    (execDelete [(["a", "x.txt"], "x.txt"), (["b", "x.txt"], "x.txt")]
        ⟨[["b", "x.txt"]], []⟩).1 = (1, ["x.txt"]) ∧
    "x.txt" ∈ (execDelete [(["a", "x.txt"], "x.txt"),
        (["b", "x.txt"], "x.txt")] ⟨[["b", "x.txt"]], []⟩).1.2 := by
  decide

/-- C7 (amended): for a plan `l₁ ++ (p₀, n₀) :: l₂` with pairwise-distinct
source paths in which exactly the middle entry fails (its path is gone at
execution time, every other path present; for moves, no earlier destination
recreates the missing path), the batch still attempts everything: the success
count is `n - 1`, and — provided the plan's file names are pairwise
distinct — the failing file's name is absent from the returned names. This
holds for the delete executor and the move executor alike. -/
theorem C7_failure_isolation_amended :
    (∀ (l₁ l₂ : List (FsPath × String)) (p₀ : FsPath) (n₀ : String)
        (fs : FsState),
      ((l₁ ++ (p₀, n₀) :: l₂).map Prod.fst).Nodup →
      (∀ e ∈ l₁ ++ l₂, e.1 ∈ fs.files) →
      p₀ ∉ fs.files →
      (execDelete (l₁ ++ (p₀, n₀) :: l₂) fs).1.1 =
          (l₁ ++ (p₀, n₀) :: l₂).length - 1 ∧
        (((l₁ ++ (p₀, n₀) :: l₂).map Prod.snd).Nodup →
          n₀ ∉ (execDelete (l₁ ++ (p₀, n₀) :: l₂) fs).1.2)) ∧
    (∀ (dest : FsPath) (l₁ l₂ : List (FsPath × String)) (p₀ : FsPath)
        (n₀ : String) (fs : FsState),
      ((l₁ ++ (p₀, n₀) :: l₂).map Prod.fst).Nodup →
      (∀ e ∈ l₁ ++ l₂, e.1 ∈ fs.files) →
      p₀ ∉ fs.files →
      (∀ e ∈ l₁, dest ++ [e.2] ≠ p₀) →
      (execMove dest (l₁ ++ (p₀, n₀) :: l₂) fs).1.1 =
          (l₁ ++ (p₀, n₀) :: l₂).length - 1 ∧
        (((l₁ ++ (p₀, n₀) :: l₂).map Prod.snd).Nodup →
          n₀ ∉ (execMove dest (l₁ ++ (p₀, n₀) :: l₂) fs).1.2)) := by
  constructor
  · intro l₁ l₂ p₀ n₀ fs hnd hmem hfail
    have hr := execDelete_one_fail l₁ l₂ p₀ n₀ fs hnd hmem hfail
    constructor
    · rw [show (execDelete (l₁ ++ (p₀, n₀) :: l₂) fs).1.1 = (execDelete
          (l₁ ++ (p₀, n₀) :: l₂) fs).1.1 from rfl, hr]
      simp [List.length_append]
    · intro hname
      rw [show (execDelete (l₁ ++ (p₀, n₀) :: l₂) fs).1.2 = (execDelete
          (l₁ ++ (p₀, n₀) :: l₂) fs).1.2 from rfl, hr]
      rw [List.map_append, List.map_cons] at hname
      have := List.nodup_middle.mp hname
      rw [List.nodup_cons] at this
      intro hcon
      apply this.1
      rw [List.map_append] at hcon
      exact hcon
  · intro dest l₁ l₂ p₀ n₀ fs hnd hmem hfail hdst
    have hr := execMove_one_fail dest l₁ l₂ p₀ n₀ fs hnd hmem hfail hdst
    constructor
    · rw [show (execMove dest (l₁ ++ (p₀, n₀) :: l₂) fs).1.1 = (execMove
          dest (l₁ ++ (p₀, n₀) :: l₂) fs).1.1 from rfl, hr]
      simp [List.length_append]
    · intro hname
      rw [show (execMove dest (l₁ ++ (p₀, n₀) :: l₂) fs).1.2 = (execMove
          dest (l₁ ++ (p₀, n₀) :: l₂) fs).1.2 from rfl, hr]
      rw [List.map_append, List.map_cons] at hname
      have := List.nodup_middle.mp hname
      rw [List.nodup_cons] at this
      intro hcon
      apply this.1
      rw [List.map_append] at hcon
      exact hcon

/-- C7 witness: three-entry plans (delete and move) whose middle entry's
path is missing at execution time. -/
theorem C7_failure_isolation_witness :
    ((execDelete ([(["s", "a.txt"], "a.txt")] ++ (["s", "b.txt"], "b.txt") ::
          [(["s", "c.txt"], "c.txt")])
          ⟨[["s", "a.txt"], ["s", "c.txt"]], []⟩).1.1 =
        ([(["s", "a.txt"], "a.txt")] ++ (["s", "b.txt"], "b.txt") ::
          [(["s", "c.txt"], "c.txt")]).length - 1 ∧
      ((([(["s", "a.txt"], "a.txt")] ++ (["s", "b.txt"], "b.txt") ::
            [(["s", "c.txt"], "c.txt")]).map Prod.snd).Nodup →
        "b.txt" ∉ (execDelete ([(["s", "a.txt"], "a.txt")] ++
            (["s", "b.txt"], "b.txt") :: [(["s", "c.txt"], "c.txt")])
            ⟨[["s", "a.txt"], ["s", "c.txt"]], []⟩).1.2)) ∧
    ((execMove ["out"] ([(["s", "a.txt"], "a.txt")] ++
          (["s", "b.txt"], "b.txt") :: [(["s", "c.txt"], "c.txt")])
          ⟨[["s", "a.txt"], ["s", "c.txt"]], []⟩).1.1 =
        ([(["s", "a.txt"], "a.txt")] ++ (["s", "b.txt"], "b.txt") ::
          [(["s", "c.txt"], "c.txt")]).length - 1 ∧
      ((([(["s", "a.txt"], "a.txt")] ++ (["s", "b.txt"], "b.txt") ::
            [(["s", "c.txt"], "c.txt")]).map Prod.snd).Nodup →
        "b.txt" ∉ (execMove ["out"] ([(["s", "a.txt"], "a.txt")] ++
            (["s", "b.txt"], "b.txt") :: [(["s", "c.txt"], "c.txt")])
            ⟨[["s", "a.txt"], ["s", "c.txt"]], []⟩).1.2)) :=
  ⟨C7_failure_isolation_amended.1 [(["s", "a.txt"], "a.txt")]
      [(["s", "c.txt"], "c.txt")] ["s", "b.txt"] "b.txt"
      ⟨[["s", "a.txt"], ["s", "c.txt"]], []⟩ (by decide) (by decide)
      (by decide),
    C7_failure_isolation_amended.2 ["out"] [(["s", "a.txt"], "a.txt")]
      [(["s", "c.txt"], "c.txt")] ["s", "b.txt"] "b.txt"
      ⟨[["s", "a.txt"], ["s", "c.txt"]], []⟩ (by decide) (by decide)
      (by decide) (by decide)⟩

/-! ## C9: the two listing functions agree -/

theorem rawFlat_eq_globStar (folder : FsPath) (entries : List FSEntry) :
    rawFlat folder entries = globStarFiles folder entries := rfl

theorem rawWalkSub_eq_glob : ∀ (es : List FSEntry) (p : FsPath),
    rawWalkSub p es =
      (globDirsSub p es).flatMap fun d => globStarFiles d.1 d.2
  | [], p => by
    simp [rawWalkSub, globDirsSub]
  | .file n t :: rest, p => by
    simp only [rawWalkSub, globDirsSub]
    exact rawWalkSub_eq_glob rest p
  | .dir d sub :: rest, p => by
    simp only [rawWalkSub, globDirsSub, List.flatMap_append]
    rw [rawWalk, globDirs, List.flatMap_cons]
    rw [rawWalkSub_eq_glob sub (p ++ [d]), rawWalkSub_eq_glob rest p]
    rfl
termination_by es _ => sizeOf es

theorem rawWalk_eq_globStarStar (p : FsPath) (es : List FSEntry) :
    rawWalk p es = globStarStarFiles p es := by
  rw [globStarStarFiles, globDirs, List.flatMap_cons, rawWalk,
    rawWalkSub_eq_glob es p]
  rfl

/-- C9: for every folder, date range and recursion flag, over the same
snapshot, the multiset of file names selected by the iterative
`read_files_in_folder` equals the multiset returned by the glob-based
`read_files_in_folder_pathlib`. -/
theorem C9_listing_equivalence (folder : FsPath) (sd ed : Option DateTime)
    (recursive : Bool) (root : RootAccess) :
    (↑((read_files_in_folder folder sd ed recursive root).map Prod.snd) :
        Multiset String) =
      ↑(read_files_in_folder_pathlib folder sd ed recursive root) := by
  have hl : (read_files_in_folder folder sd ed recursive root).map Prod.snd =
      read_files_in_folder_pathlib folder sd ed recursive root := by
    cases root with
    | err e => rfl
    | ok entries =>
      cases recursive
      · rw [read_files_flat_eq, List.map_map]
        rfl
      · rw [read_files_walk_eq, List.map_map, rawWalk_eq_globStarStar]
        rfl
  rw [hl]

/-! ## C6: move-by-year grouping -/

theorem addToGroup_keys (acc : List (String × List (FsPath × String)))
    (y : String) (x : FsPath × String) :
    (addToGroup acc y x).map Prod.fst =
      if acc.any (fun g => g.1 == y) then acc.map Prod.fst
      else acc.map Prod.fst ++ [y] := by
  unfold addToGroup
  split
  · rw [List.map_map]
    apply List.map_congr_left
    intro g _
    by_cases hg : g.1 = y <;> simp [hg]
  · simp

theorem not_key_of_any_eq_false
    (acc : List (String × List (FsPath × String))) (y : String)
    (h : acc.any (fun g => g.1 == y) = false) :
    y ∉ acc.map Prod.fst := by
  intro hy
  obtain ⟨g, hg, hgy⟩ := List.mem_map.mp hy
  rw [List.any_eq_false] at h
  have := h g hg
  simp [hgy] at this

theorem addToGroup_keys_nodup
    (acc : List (String × List (FsPath × String))) (y : String)
    (x : FsPath × String) (h : (acc.map Prod.fst).Nodup) :
    ((addToGroup acc y x).map Prod.fst).Nodup := by
  rw [addToGroup_keys]
  split
  · exact h
  · rename_i hany
    rw [List.nodup_append]
    refine ⟨h, List.nodup_singleton y, ?_⟩
    intro a ha hb
    rw [List.mem_singleton] at hb
    subst hb
    exact not_key_of_any_eq_false acc _ (Bool.eq_false_iff.mpr hany) ha

theorem map_addToGroup_id
    (acc : List (String × List (FsPath × String))) (y : String)
    (x : FsPath × String) (h : y ∉ acc.map Prod.fst) :
    acc.map (fun g => if g.1 == y then (g.1, g.2 ++ [x]) else g) = acc := by
  conv_rhs => rw [← List.map_id acc]
  apply List.map_congr_left
  intro g hg
  have hne : g.1 ≠ y := by
    intro he
    exact h (he ▸ List.mem_map_of_mem Prod.fst hg)
  simp [hne]

theorem addToGroup_flatMap_perm
    (acc : List (String × List (FsPath × String))) (y : String)
    (x : FsPath × String) (hnd : (acc.map Prod.fst).Nodup) :
    List.Perm ((addToGroup acc y x).flatMap Prod.snd)
      (acc.flatMap Prod.snd ++ [x]) := by
  induction acc with
  | nil => simp [addToGroup]
  | cons g acc' ih =>
    simp only [List.map_cons, List.nodup_cons] at hnd
    unfold addToGroup
    cases hg : (g.1 == y)
    · cases hany' : acc'.any (fun g => g.1 == y)
      · have hany : ((g :: acc').any (fun g => g.1 == y)) = false := by
          simp only [List.any_cons, hg, hany', Bool.or_self]
        rw [if_neg (by simp [hany])]
        simp only [List.flatMap_append, List.flatMap_cons,
          List.flatMap_nil, List.append_nil, List.append_assoc]
        exact List.Perm.refl _
      · have hany : ((g :: acc').any (fun g => g.1 == y)) = true := by
          simp [List.any_cons, hany']
        rw [if_pos hany]
        simp only [List.map_cons, List.flatMap_cons,
          if_neg (by simp [hg] : ¬(g.1 == y) = true)]
        rw [List.append_assoc]
        apply List.Perm.append_left
        have ih' := ih hnd.2
        rw [addToGroup, if_pos hany'] at ih'
        exact ih'
    · have hany : ((g :: acc').any (fun g => g.1 == y)) = true := by
        simp [List.any_cons, hg]
      rw [if_pos hany]
      simp only [List.map_cons, List.flatMap_cons, if_pos hg]
      have hyk : y ∉ acc'.map Prod.fst := by
        have := eq_of_beq hg
        exact this ▸ hnd.1
      rw [map_addToGroup_id acc' y x hyk]
      rw [List.append_assoc, List.append_assoc]
      exact List.Perm.append_left g.2 List.perm_append_comm

theorem addToGroup_content (acc : List (String × List (FsPath × String)))
    (y : String) (x : FsPath × String) :
    ∀ g' ∈ addToGroup acc y x, ∀ z ∈ g'.2,
      (∃ g ∈ acc, g.1 = g'.1 ∧ z ∈ g.2) ∨ (z = x ∧ g'.1 = y) := by
  unfold addToGroup
  split
  · intro g' hg' z hz
    obtain ⟨g, hg, hfg⟩ := List.mem_map.mp hg'
    by_cases hgy : (g.1 == y) = true
    · rw [if_pos hgy] at hfg
      subst hfg
      rcases List.mem_append.mp hz with h | h
      · exact Or.inl ⟨g, hg, rfl, h⟩
      · exact Or.inr ⟨List.mem_singleton.mp h, eq_of_beq hgy⟩
    · rw [if_neg hgy] at hfg
      subst hfg
      exact Or.inl ⟨g, hg, rfl, hz⟩
  · intro g' hg' z hz
    rcases List.mem_append.mp hg' with h | h
    · exact Or.inl ⟨g', h, rfl, hz⟩
    · rw [List.mem_singleton] at h
      subst h
      exact Or.inr ⟨List.mem_singleton.mp hz, rfl⟩

theorem addToGroup_self_mem (acc : List (String × List (FsPath × String)))
    (y : String) (x : FsPath × String) :
    ∃ g ∈ addToGroup acc y x, g.1 = y ∧ x ∈ g.2 := by
  unfold addToGroup
  split
  · rename_i hany
    obtain ⟨g, hg, hgy⟩ := List.any_eq_true.mp hany
    refine ⟨(g.1, g.2 ++ [x]), ?_, eq_of_beq hgy, by simp⟩
    refine List.mem_map.mpr ⟨g, hg, ?_⟩
    rw [if_pos hgy]
  · exact ⟨(y, [x]), by simp, rfl, by simp⟩

theorem addToGroup_preserve (acc : List (String × List (FsPath × String)))
    (y : String) (x : FsPath × String) (k : String) (z : FsPath × String)
    (h : ∃ g ∈ acc, g.1 = k ∧ z ∈ g.2) :
    ∃ g' ∈ addToGroup acc y x, g'.1 = k ∧ z ∈ g'.2 := by
  obtain ⟨g, hg, hk, hz⟩ := h
  unfold addToGroup
  split
  · refine ⟨if (g.1 == y) = true then (g.1, g.2 ++ [x]) else g,
      List.mem_map_of_mem _ hg, ?_, ?_⟩
    · by_cases hgy : (g.1 == y) = true
      · rw [if_pos hgy]
        exact hk
      · rw [if_neg hgy]
        exact hk
    · by_cases hgy : (g.1 == y) = true
      · rw [if_pos hgy]
        exact List.mem_append_left _ hz
      · rw [if_neg hgy]
        exact hz
  · exact ⟨g, List.mem_append_left _ hg, hk, hz⟩

theorem files_by_year_keys_nodup (mt : FsPath → Option DateTime) :
    ∀ (all : List (FsPath × String))
      (acc : List (String × List (FsPath × String))),
      (acc.map Prod.fst).Nodup →
      ((files_by_year mt all acc).map Prod.fst).Nodup := by
  intro all
  induction all with
  | nil =>
    intro acc h
    simpa [files_by_year] using h
  | cons z rest ih =>
    intro acc h
    cases hmt : mt z.1 with
    | some t =>
      simp only [files_by_year, hmt]
      exact ih _ (addToGroup_keys_nodup _ _ _ h)
    | none =>
      simp only [files_by_year, hmt]
      exact ih _ h

theorem files_by_year_content (mt : FsPath → Option DateTime) :
    ∀ (all : List (FsPath × String))
      (acc : List (String × List (FsPath × String))),
      (∀ g ∈ acc, ∀ z ∈ g.2, ∃ t, mt z.1 = some t ∧
        g.1 = toString t.year) →
      ∀ g ∈ files_by_year mt all acc, ∀ z ∈ g.2,
        ∃ t, mt z.1 = some t ∧ g.1 = toString t.year := by
  intro all
  induction all with
  | nil =>
    intro acc h
    simpa [files_by_year] using h
  | cons w rest ih =>
    intro acc h
    cases hmt : mt w.1 with
    | some t =>
      simp only [files_by_year, hmt]
      apply ih
      intro g' hg' z hz
      rcases addToGroup_content acc (toString t.year) w g' hg' z hz with
        ⟨g, hg, hk, hzg⟩ | ⟨hzx, hk⟩
      · obtain ⟨t', ht', hy⟩ := h g hg z hzg
        refine ⟨t', ht', ?_⟩
        rw [← hk]
        exact hy
      · subst hzx
        exact ⟨t, hmt, hk⟩
    | none =>
      simp only [files_by_year, hmt]
      exact ih acc h

theorem files_by_year_preserve (mt : FsPath → Option DateTime) :
    ∀ (all : List (FsPath × String))
      (acc : List (String × List (FsPath × String))) (k : String)
      (z : FsPath × String),
      (∃ g ∈ acc, g.1 = k ∧ z ∈ g.2) →
      ∃ g ∈ files_by_year mt all acc, g.1 = k ∧ z ∈ g.2 := by
  intro all
  induction all with
  | nil =>
    intro acc k z h
    simpa [files_by_year] using h
  | cons w rest ih =>
    intro acc k z h
    cases hmt : mt w.1 with
    | some t =>
      simp only [files_by_year, hmt]
      exact ih _ k z (addToGroup_preserve _ _ _ k z h)
    | none =>
      simp only [files_by_year, hmt]
      exact ih _ k z h

theorem files_by_year_mem_exists (mt : FsPath → Option DateTime) :
    ∀ (all : List (FsPath × String))
      (acc : List (String × List (FsPath × String)))
      (z : FsPath × String) (t : DateTime),
      z ∈ all → mt z.1 = some t →
      ∃ g ∈ files_by_year mt all acc, g.1 = toString t.year ∧ z ∈ g.2 := by
  intro all
  induction all with
  | nil =>
    intro acc z t hz
    exact absurd hz (List.not_mem_nil z)
  | cons w rest ih =>
    intro acc z t hz hmt
    rcases List.mem_cons.mp hz with hzw | hzr
    · subst hzw
      simp only [files_by_year, hmt]
      exact files_by_year_preserve mt rest _ _ z
        (addToGroup_self_mem acc (toString t.year) z)
    · cases hmtw : mt w.1 with
      | some t' =>
        simp only [files_by_year, hmtw]
        exact ih _ z t hzr hmt
      | none =>
        simp only [files_by_year, hmtw]
        exact ih _ z t hzr hmt

theorem files_by_year_flatMap_perm (mt : FsPath → Option DateTime) :
    ∀ (all : List (FsPath × String))
      (acc : List (String × List (FsPath × String))),
      (acc.map Prod.fst).Nodup →
      (∀ z ∈ all, (mt z.1).isSome = true) →
      List.Perm ((files_by_year mt all acc).flatMap Prod.snd)
        (acc.flatMap Prod.snd ++ all) := by
  intro all
  induction all with
  | nil =>
    intro acc _ _
    simp [files_by_year]
  | cons z rest ih =>
    intro acc hnd hall
    obtain ⟨t, hmt⟩ :=
      Option.isSome_iff_exists.mp (hall z (List.mem_cons_self _ _))
    simp only [files_by_year, hmt]
    have h1 := ih (addToGroup acc (toString t.year) z)
      (addToGroup_keys_nodup _ _ _ hnd)
      (fun w hw => hall w (List.mem_cons_of_mem _ hw))
    refine h1.trans ?_
    have h2 := (addToGroup_flatMap_perm acc (toString t.year) z
      hnd).append_right rest
    refine h2.trans ?_
    rw [List.append_assoc]
    exact List.Perm.refl _

/-- C6: `move_files_by_year` enumerates with no date filter and partitions
the result into groups keyed by the string of each file's own modification
year (as reported by the execution-time stat `mt`, assumed to succeed over
the unchanged snapshot): the keys are pairwise distinct, the union of all
groups is, as a multiset, exactly the enumerated set, and every enumerated
file lies in a group exactly when that group's key is its own modification
year. -/
theorem C6_year_partition (src : FsPath) (recursive : Bool)
    (root : RootAccess) (mt : FsPath → Option DateTime)
    (h : ∀ z ∈ read_files_in_folder src none none recursive root,
      (mt z.1).isSome = true) :
    ((move_files_by_year_groups src recursive root mt).map
        Prod.fst).Nodup ∧
    List.Perm ((move_files_by_year_groups src recursive root mt).flatMap
        Prod.snd)
      (read_files_in_folder src none none recursive root) ∧
    ∀ z ∈ read_files_in_folder src none none recursive root,
      ∀ t, mt z.1 = some t →
        (∃ g ∈ move_files_by_year_groups src recursive root mt,
          g.1 = toString t.year ∧ z ∈ g.2) ∧
        ∀ g ∈ move_files_by_year_groups src recursive root mt,
          z ∈ g.2 → g.1 = toString t.year := by
  unfold move_files_by_year_groups
  refine ⟨?_, ?_, ?_⟩
  · exact files_by_year_keys_nodup mt _ [] (by simp)
  · have := files_by_year_flatMap_perm mt
      (read_files_in_folder src none none recursive root) [] (by simp) h
    simpa using this
  · intro z hz t hmt
    constructor
    · exact files_by_year_mem_exists mt _ [] z t hz hmt
    · intro g hg hzg
      obtain ⟨t', ht', hy⟩ :=
        files_by_year_content mt _ [] (by simp) g hg z hzg
      rw [hmt] at ht'
      injection ht' with hte
      rw [hy, hte]

/-- C6 witness: two files with modification years 2024 and 2025. -/
theorem C6_year_partition_witness :
    ((move_files_by_year_groups ["s"] false
        (RootAccess.ok [FSEntry.file "a.txt" ⟨2024, 3, 1, 0, 0, 0⟩,
          FSEntry.file "b.txt" ⟨2025, 7, 2, 0, 0, 0⟩])
        (fun p => if p == ["s", "a.txt"] then some ⟨2024, 3, 1, 0, 0, 0⟩
          else if p == ["s", "b.txt"] then some ⟨2025, 7, 2, 0, 0, 0⟩
          else none)).map Prod.fst).Nodup ∧
    List.Perm ((move_files_by_year_groups ["s"] false
        (RootAccess.ok [FSEntry.file "a.txt" ⟨2024, 3, 1, 0, 0, 0⟩,
          FSEntry.file "b.txt" ⟨2025, 7, 2, 0, 0, 0⟩])
        (fun p => if p == ["s", "a.txt"] then some ⟨2024, 3, 1, 0, 0, 0⟩
          else if p == ["s", "b.txt"] then some ⟨2025, 7, 2, 0, 0, 0⟩
          else none)).flatMap Prod.snd)
      (read_files_in_folder ["s"] none none false
        (RootAccess.ok [FSEntry.file "a.txt" ⟨2024, 3, 1, 0, 0, 0⟩,
          FSEntry.file "b.txt" ⟨2025, 7, 2, 0, 0, 0⟩])) ∧
    ∀ z ∈ read_files_in_folder ["s"] none none false
        (RootAccess.ok [FSEntry.file "a.txt" ⟨2024, 3, 1, 0, 0, 0⟩,
          FSEntry.file "b.txt" ⟨2025, 7, 2, 0, 0, 0⟩]),
      ∀ t, (fun p => if p == ["s", "a.txt"] then
            some ⟨2024, 3, 1, 0, 0, 0⟩
          else if p == ["s", "b.txt"] then some ⟨2025, 7, 2, 0, 0, 0⟩
          else none : FsPath → Option DateTime) z.1 = some t →
        (∃ g ∈ move_files_by_year_groups ["s"] false
            (RootAccess.ok [FSEntry.file "a.txt" ⟨2024, 3, 1, 0, 0, 0⟩,
              FSEntry.file "b.txt" ⟨2025, 7, 2, 0, 0, 0⟩])
            (fun p => if p == ["s", "a.txt"] then
                some ⟨2024, 3, 1, 0, 0, 0⟩
              else if p == ["s", "b.txt"] then some ⟨2025, 7, 2, 0, 0, 0⟩
              else none),
          g.1 = toString t.year ∧ z ∈ g.2) ∧
        ∀ g ∈ move_files_by_year_groups ["s"] false
            (RootAccess.ok [FSEntry.file "a.txt" ⟨2024, 3, 1, 0, 0, 0⟩,
              FSEntry.file "b.txt" ⟨2025, 7, 2, 0, 0, 0⟩])
            (fun p => if p == ["s", "a.txt"] then
                some ⟨2024, 3, 1, 0, 0, 0⟩
              else if p == ["s", "b.txt"] then some ⟨2025, 7, 2, 0, 0, 0⟩
              else none),
          z ∈ g.2 → g.1 = toString t.year :=
  C6_year_partition ["s"] false
    (RootAccess.ok [FSEntry.file "a.txt" ⟨2024, 3, 1, 0, 0, 0⟩,
      FSEntry.file "b.txt" ⟨2025, 7, 2, 0, 0, 0⟩])
    (fun p => if p == ["s", "a.txt"] then some ⟨2024, 3, 1, 0, 0, 0⟩
      else if p == ["s", "b.txt"] then some ⟨2025, 7, 2, 0, 0, 0⟩
      else none)
    (by decide)
